import Mathlib

/-!
A verification development for `stockScript.py`, a script that fetches
per-ticker daily trading history for all A-share stocks over a fixed date
range, tags and normalizes the rows, concatenates the non-empty partial
tables, sorts them by stock code and date, reorders the columns of the
final table and writes it out.

The definitions below are shallow embeddings of the script's functions;
the theorems establish the properties stated in the specification.
-/

namespace StockScript

open List

/-! ## Decimal rendering and parsing

`stockScript.py` line 31 re-stamps each row's code field with
`"0>6".format(int(symbol))` (format spec written without braces here).
We model Python decimal rendering of an integer (`str`), parsing of a
decimal string (`int`), the format-spec left padding, and `str.zfill(6)`
from `get_all_a_stock_codes` (line 12).
-/

/-- The character for a decimal digit `n < 10`, as produced by Python decimal
formatting.  Inputs `9 < n` are clamped to the digit 9, a case that never
arises below. -/
def digitChar (n : Nat) : Char :=
  if n = 0 then '0' else if n = 1 then '1' else if n = 2 then '2'
  else if n = 3 then '3' else if n = 4 then '4' else if n = 5 then '5'
  else if n = 6 then '6' else if n = 7 then '7' else if n = 8 then '8' else '9'

/-- Least-significant-first decimal digits of `n`, with explicit fuel;
any `fuel > n` gives the exact digit list. -/
def digitsRev (fuel n : Nat) : List Char :=
  match fuel with
  | 0 => []
  | fuel + 1 =>
    if n < 10 then [digitChar n] else digitChar (n % 10) :: digitsRev fuel (n / 10)

/-- Python `str()` of a non-negative integer: its decimal digits, most
significant first, no sign and no leading zeros. -/
def natStr (n : Nat) : String := ⟨(digitsRev (n + 1) n).reverse⟩

/-- Python `str()` of an integer. -/
def intStr (i : Int) : String := if i < 0 then "-" ++ natStr i.natAbs else natStr i.toNat

/-- Python format spec `0>6` (line 31): left-pad with the fill character `0`
to width 6; strings already of length at least 6 are unchanged.  Unlike
`zfill`, this spec does not treat a leading sign specially. -/
def padLeftZero6 (s : String) : String := ⟨List.replicate (6 - s.length) '0' ++ s.data⟩

/-- Line 31: the zero padding applied to the result of `int(symbol)`. -/
def formatPad6 (i : Int) : String := padLeftZero6 (intStr i)

/-- The numeric value of a list of decimal digit characters (most
significant first). -/
def digitsVal (cs : List Char) : Nat := cs.foldl (fun a c => 10 * a + (c.toNat - 48)) 0

/-- Parse a non-empty, all-digit character list; `none` otherwise. -/
def parseDigits (cs : List Char) : Option Nat :=
  if cs ≠ [] ∧ cs.all Char.isDigit then some (digitsVal cs) else none

/-- Helper for `pyInt`, working on the character list of the string. -/
def pyIntAux : List Char → Option Int
  | [] => none
  | c :: rest =>
    if c = '+' then (parseDigits rest).map (fun n => (n : Int))
    else if c = '-' then (parseDigits rest).map (fun n => -(n : Int))
    else (parseDigits (c :: rest)).map (fun n => (n : Int))

/-- Python `int()` on a string, restricted to the forms relevant here: an
optional single sign followed by a non-empty run of decimal digits (leading
zeros allowed).  `none` models the `ValueError` raised on any other string.
(Python additionally strips whitespace and allows underscore separators;
those forms never occur for stock codes.) -/
def pyInt (s : String) : Option Int := pyIntAux s.data

/-- Line 31 as a string-to-string function: format the value of
`int(s)` with the `0>6` spec; `none` models the `ValueError` from `int`. -/
def pad (s : String) : Option String := (pyInt s).map formatPad6

/-- Helper for `zfill6`, working on the character list of the string. -/
def zfill6Aux : List Char → List Char
  | [] => List.replicate 6 '0'
  | c :: rest =>
    if c = '+' ∨ c = '-' then c :: (List.replicate (6 - (c :: rest).length) '0' ++ rest)
    else List.replicate (6 - (c :: rest).length) '0' ++ (c :: rest)

/-- Python `str.zfill(6)` (line 12): left-pad with zeros to total width 6,
keeping a leading sign character in front of the inserted zeros; strings of
length at least 6 are returned unchanged. -/
def zfill6 (s : String) : String :=
  if 6 ≤ s.length then s else ⟨zfill6Aux s.data⟩

/-! ### Facts about decimal rendering and parsing -/

lemma digitChar_isDigit (n : Nat) : (digitChar n).isDigit = true := by
  unfold digitChar
  split_ifs <;> decide

lemma digitChar_toNat (n : Nat) (h : n < 10) : (digitChar n).toNat - 48 = n := by
  interval_cases n <;> decide

lemma digitsRev_length_pos (fuel n : Nat) (h : 0 < fuel) : 0 < (digitsRev fuel n).length := by
  cases fuel with
  | zero => omega
  | succ f =>
    simp only [digitsRev]
    split <;> simp

lemma digitsRev_all_isDigit (fuel n : Nat) : (digitsRev fuel n).all Char.isDigit = true := by
  induction fuel generalizing n with
  | zero => rfl
  | succ f ih =>
    simp only [digitsRev]
    split
    · simp [digitChar_isDigit]
    · simp [digitChar_isDigit, ih]

lemma digitsRev_foldr (fuel : Nat) : ∀ n a, n < fuel →
    (digitsRev fuel n).foldr (fun c b => 10 * b + (c.toNat - 48)) a
      = a * 10 ^ (digitsRev fuel n).length + n := by
  induction fuel with
  | zero => intro n a h; exact absurd h (Nat.not_lt_zero n)
  | succ f ih =>
    intro n a h
    simp only [digitsRev]
    split
    · rename_i h10
      simp only [List.foldr_cons, List.foldr_nil, List.length_cons, List.length_nil]
      rw [digitChar_toNat n h10, pow_succ, pow_zero]
      omega
    · rename_i h10
      push_neg at h10
      have hdiv : n / 10 < f := by omega
      simp only [List.foldr_cons, List.length_cons]
      rw [ih (n / 10) a hdiv]
      rw [digitChar_toNat (n % 10) (Nat.mod_lt n (by omega))]
      rw [pow_succ]
      have hswap : a * (10 ^ (digitsRev f (n / 10)).length * 10)
          = 10 * (a * 10 ^ (digitsRev f (n / 10)).length) := by ring
      rw [hswap]
      generalize a * 10 ^ (digitsRev f (n / 10)).length = u
      omega

lemma digitsRev_length_le (fuel : Nat) : ∀ n k, n < fuel → n < 10 ^ k → 1 ≤ k →
    (digitsRev fuel n).length ≤ k := by
  induction fuel with
  | zero => intro n k h _ _; exact absurd h (Nat.not_lt_zero n)
  | succ f ih =>
    intro n k h hk h1
    simp only [digitsRev]
    split
    · simpa using h1
    · rename_i h10
      push_neg at h10
      obtain ⟨k', rfl⟩ : ∃ k', k = k' + 1 := ⟨k - 1, by omega⟩
      simp only [List.length_cons]
      have hdiv : n / 10 < f := by omega
      have hk' : n / 10 < 10 ^ k' := by
        rw [Nat.div_lt_iff_lt_mul (by omega)]
        calc n < 10 ^ (k' + 1) := hk
          _ = 10 ^ k' * 10 := by rw [pow_succ]
      have h1' : 1 ≤ k' := by
        by_contra hc
        push_neg at hc
        have hk0 : k' = 0 := by omega
        rw [hk0, pow_zero] at hk'
        omega
      exact Nat.succ_le_succ (ih (n / 10) k' hdiv hk' h1')

lemma digitsVal_reverse (fuel n : Nat) (h : n < fuel) :
    digitsVal (digitsRev fuel n).reverse = n := by
  unfold digitsVal
  rw [List.foldl_reverse]
  rw [digitsRev_foldr fuel n 0 h]
  simp

lemma digitsVal_replicate_zero (k : Nat) (cs : List Char) :
    digitsVal (List.replicate k '0' ++ cs) = digitsVal cs := by
  unfold digitsVal
  rw [List.foldl_append]
  congr 1
  induction k with
  | zero => rfl
  | succ k ih =>
    rw [List.replicate_succ, List.foldl_cons]
    have hz : 10 * 0 + (('0' : Char).toNat - 48) = 0 := by decide
    rw [hz]
    exact ih

lemma natStr_data (n : Nat) : (natStr n).data = (digitsRev (n + 1) n).reverse := rfl

lemma digitsVal_natStr (n : Nat) : digitsVal (natStr n).data = n :=
  digitsVal_reverse (n + 1) n (Nat.lt_succ_self n)

lemma natStr_all_isDigit (n : Nat) : (natStr n).data.all Char.isDigit = true := by
  rw [natStr_data]
  have h := digitsRev_all_isDigit (n + 1) n
  simp only [List.all_eq_true] at h ⊢
  intro c hc
  exact h c (List.mem_reverse.mp hc)

lemma natStr_ne_nil (n : Nat) : (natStr n).data ≠ [] := by
  rw [natStr_data]
  intro hnil
  have h := digitsRev_length_pos (n + 1) n (by omega)
  have h0 : (digitsRev (n + 1) n).reverse.length = 0 := by rw [hnil]; rfl
  rw [List.length_reverse] at h0
  omega

lemma string_length_eq_data (s : String) : s.length = s.data.length := rfl

lemma natStr_length_le (n k : Nat) (h : n < 10 ^ k) (h1 : 1 ≤ k) : (natStr n).length ≤ k := by
  rw [string_length_eq_data, natStr_data, List.length_reverse]
  exact digitsRev_length_le (n + 1) n k (Nat.lt_succ_self n) h h1

lemma padLeftZero6_data (s : String) :
    (padLeftZero6 s).data = List.replicate (6 - s.length) '0' ++ s.data := rfl

lemma padLeftZero6_length (s : String) : (padLeftZero6 s).length = max 6 s.length := by
  rw [string_length_eq_data, padLeftZero6_data, List.length_append, List.length_replicate]
  rw [string_length_eq_data s]
  omega

lemma parseDigits_of_digits (cs : List Char) (h1 : cs ≠ []) (h2 : cs.all Char.isDigit = true) :
    parseDigits cs = some (digitsVal cs) := by
  unfold parseDigits
  rw [if_pos ⟨h1, h2⟩]

lemma pyIntAux_of_digits (cs : List Char) (h1 : cs ≠ []) (h2 : cs.all Char.isDigit = true) :
    pyIntAux cs = some ((digitsVal cs : Nat) : Int) := by
  cases cs with
  | nil => exact absurd rfl h1
  | cons c rest =>
    have hc : c.isDigit = true := by
      simp only [List.all_cons, Bool.and_eq_true] at h2
      exact h2.1
    have hplus : ¬ c = '+' := by
      intro e; rw [e] at hc; exact absurd hc (by decide)
    have hminus : ¬ c = '-' := by
      intro e; rw [e] at hc; exact absurd hc (by decide)
    simp only [pyIntAux, if_neg hplus, if_neg hminus]
    rw [parseDigits_of_digits (c :: rest) h1 h2]
    rfl

lemma pyInt_padLeftZero6_natStr (n : Nat) :
    pyInt (padLeftZero6 (natStr n)) = some ((n : Nat) : Int) := by
  unfold pyInt
  rw [padLeftZero6_data]
  have hne : List.replicate (6 - (natStr n).length) '0' ++ (natStr n).data ≠ [] := by
    simp [natStr_ne_nil n]
  have hall : (List.replicate (6 - (natStr n).length) '0' ++ (natStr n).data).all
      Char.isDigit = true := by
    simp only [List.all_append, Bool.and_eq_true]
    constructor
    · simp only [List.all_eq_true]
      intro c hc
      rw [List.eq_of_mem_replicate hc]
      decide
    · exact natStr_all_isDigit n
  rw [pyIntAux_of_digits _ hne hall]
  rw [digitsVal_replicate_zero, digitsVal_natStr]

lemma formatPad6_ofNat (n : Nat) : formatPad6 ((n : Nat) : Int) = padLeftZero6 (natStr n) := by
  unfold formatPad6 intStr
  rw [if_neg (by omega : ¬ ((n : Nat) : Int) < 0)]
  have h : ((n : Nat) : Int).toNat = n := by omega
  rw [h]

lemma pad_roundtrip (n : Nat) :
    pad (padLeftZero6 (natStr n)) = some (padLeftZero6 (natStr n)) := by
  unfold pad
  rw [pyInt_padLeftZero6_natStr n]
  show some (formatPad6 ((n : Nat) : Int)) = some (padLeftZero6 (natStr n))
  rw [formatPad6_ofNat]

lemma zfill6Aux_length (cs : List Char) (h : cs.length < 6) : (zfill6Aux cs).length = 6 := by
  match cs with
  | [] => simp [zfill6Aux]
  | c :: rest =>
    simp only [List.length_cons] at h
    simp only [zfill6Aux]
    split
    · simp only [List.length_cons, List.length_append, List.length_replicate]
      omega
    · simp only [List.length_append, List.length_replicate, List.length_cons]
      omega

lemma zfill6_of_le (s : String) (h : 6 ≤ s.length) : zfill6 s = s := by
  simp only [zfill6]
  rw [if_pos h]

lemma zfill6_idem (s : String) : zfill6 (zfill6 s) = zfill6 s := by
  by_cases h : 6 ≤ s.length
  · have h1 : zfill6 s = s := zfill6_of_le s h
    rw [h1, h1]
  · have hlen : (zfill6 s).length = 6 := by
      simp only [zfill6]
      rw [if_neg h, string_length_eq_data]
      exact zfill6Aux_length s.data (by rw [← string_length_eq_data]; omega)
    exact zfill6_of_le (zfill6 s) (by omega)

/-- Claim C6: the zero padding applied to stock codes is idempotent,
`pad (pad x) = pad x`, and yields a string of exactly 6 characters for every
input representing a non-negative integer strictly below 1000000.  The first
conjunct covers the padding of line 31 (`int` followed by the `0>6` format
spec, a partial function on strings); the second covers the `zfill(6)`
padding of line 12, which is idempotent on every string. -/
theorem claim_C6 :
    (∀ (s : String) (i : Int), pyInt s = some i → 0 ≤ i →
      ∃ t, pad s = some t ∧ pad t = some t ∧ (i < 1000000 → t.length = 6))
    ∧ (∀ u : String, zfill6 (zfill6 u) = zfill6 u) := by
  constructor
  · intro s i hp hi
    obtain ⟨n, rfl⟩ : ∃ n : Nat, i = ((n : Nat) : Int) := ⟨i.toNat, by omega⟩
    refine ⟨formatPad6 ((n : Nat) : Int), ?_, ?_, ?_⟩
    · unfold pad
      rw [hp]
      rfl
    · rw [formatPad6_ofNat]
      exact pad_roundtrip n
    · intro hlt
      rw [formatPad6_ofNat, padLeftZero6_length]
      have hn : n < 10 ^ 6 := by
        have : (10 : Nat) ^ 6 = 1000000 := by norm_num
        omega
      have := natStr_length_le n 6 hn (by omega)
      omega
  · exact zfill6_idem

/-- Witness for claim C6 at the concrete input `"7"`: padding gives a
6-character string and padding again does not change it. -/
theorem claim_C6_witness :
    ∃ t, pad "7" = some t ∧ pad t = some t ∧ (((7 : Nat) : Int) < 1000000 → t.length = 6) :=
  claim_C6.1 "7" ((7 : Nat) : Int) (by decide) (by decide)

/-! ## The Fetch Worker: `get_stock_history` (lines 18-40) -/

/-- A cell value of a dataframe.  `num s` is a numeric cell whose Python
string rendering is `s`; `nan` is a missing value (a float NaN in pandas),
whose rendering under `astype(str)` is the string `"nan"`; `str` is a
string cell. -/
inductive Value where
  | num (s : String)
  | nan
  | str (s : String)
deriving DecidableEq

/-- The Python string rendering of a cell, as applied by `astype(str)`
(pandas renders a missing value as `"nan"`). -/
def Value.pyStr : Value → String
  | .num s => s
  | .nan => "nan"
  | .str s => s

/-- A dataframe, stored column-wise: the columns in order, each with its
name and its cells (top to bottom). -/
structure Df where
  cols : List (String × List Value)
deriving DecidableEq

/-- The empty dataframe, `pd.DataFrame()` (line 40). -/
def Df.empty : Df := ⟨[]⟩

/-- Column membership, `c in df.columns` (line 35). -/
def Df.hasCol (df : Df) (c : String) : Bool := df.cols.any (fun p => p.1 == c)

/-- Find the cells of the first column named `c` in a column list. -/
def colLookup : List (String × List Value) → String → Option (List Value)
  | [], _ => none
  | p :: rest, c => if p.1 == c then some p.2 else colLookup rest c

/-- The cells of column `c`, when present. -/
def Df.getCol (df : Df) (c : String) : Option (List Value) := colLookup df.cols c

/-- The number of rows: the length of the first column (a dataframe without
columns has no rows). -/
def Df.nrows (df : Df) : Nat :=
  match df.cols with
  | [] => 0
  | p :: _ => p.2.length

/-- pandas `df.empty` (line 27): true when the frame has no columns or no
rows. -/
def Df.isEmpty (df : Df) : Bool := df.cols.isEmpty || df.nrows == 0

/-- Scalar column assignment `df[c] = v` (lines 31-32): overwrite column `c` with
the value repeated on every row, appending a new column on the right when
`c` is not present. -/
def Df.setColScalar (df : Df) (c : String) (v : Value) : Df :=
  if df.hasCol c then
    ⟨df.cols.map (fun p => if p.1 == c then (p.1, p.2.map (fun _ => v)) else p)⟩
  else ⟨df.cols ++ [(c, List.replicate df.nrows v)]⟩

/-- Rewrite the cells of column `c` pointwise (identity when `c` is
absent); `df[c] = df[c].astype(str) + "%"` is `mapCol` with `pctFn`. -/
def Df.mapCol (df : Df) (c : String) (f : Value → Value) : Df :=
  ⟨df.cols.map (fun p => if p.1 == c then (p.1, p.2.map f) else p)⟩

/-- The two percent columns of line 34: turnover rate and change percent. -/
def percentCols : List String := ["换手率", "涨跌幅"]

/-- The percent-suffix conversion of line 36: `astype(str) + "%"` applied
to one cell. -/
def pctFn (v : Value) : Value := .str (v.pyStr ++ "%")

/-- One iteration of the loop of lines 34-36: convert the column when it is
present. -/
def pctStep (d : Df) (c : String) : Df := if d.hasCol c then d.mapCol c pctFn else d

/-- The diagnostic printed by line 39 (an f-string): the error text
truncated to its first 50 characters, between a fixed prefix naming the
symbol and a fixed `...` suffix. -/
def failMsg (symbol err : String) : String :=
  "股票 " ++ symbol ++ " 获取失败: " ++ err.take 50 ++ "..."

/-- The message of the `ValueError` raised by `int(symbol)` on an
unparseable string (Python quotes the offending literal; we keep it
unquoted). -/
def intErrMsg (symbol : String) : String :=
  "invalid literal for int() with base 10: " ++ symbol

/-- The outcome of one `get_stock_history` call: the diagnostic printed, if
any, and the returned table. -/
structure WorkerResult where
  log : Option String
  table : Df
deriving DecidableEq

/-- Lines 18-40, `get_stock_history`.  `fetched` is the outcome of the
provider call `ak.stock_zh_a_hist(...)` for these arguments: `.error e`
models an exception carrying message `e`, `.ok df` a returned frame.  The
body mirrors the `try` block: a non-empty frame has its code column
re-stamped with the padded value of `int(symbol)` (line 31; the
`ValueError` on an unparseable symbol is caught by the same handler as
provider errors), its name column set (line 32), and the two percent
columns converted to their string forms with a `%` suffix (lines 34-36).
Every caught exception prints the truncated diagnostic of line 39 and the
function returns an empty frame (line 40), as it also does for an empty
provider result. -/
def get_stock_history (fetched : Except String Df) (symbol name : String) : WorkerResult :=
  match fetched with
  | .error e => ⟨some (failMsg symbol e), Df.empty⟩
  | .ok df =>
    if df.isEmpty then ⟨none, Df.empty⟩
    else
      match pyInt symbol with
      | none => ⟨some (failMsg symbol (intErrMsg symbol)), Df.empty⟩
      | some code =>
        let df1 := (df.setColScalar "股票代码" (.str (formatPad6 code))).setColScalar
          "股票名称" (.str name)
        ⟨none, percentCols.foldl pctStep df1⟩

/-! ### Facts about the worker -/

lemma colLookup_mapEntry_self (l : List (String × List Value)) (c : String)
    (F : List Value → List Value) :
    colLookup (l.map (fun p => if p.1 == c then (p.1, F p.2) else p)) c
      = (colLookup l c).map F := by
  induction l with
  | nil => rfl
  | cons p rest ih =>
    by_cases h1 : (p.1 == c) = true
    · simp [colLookup, h1]
    · simp only [Bool.not_eq_true] at h1
      simpa [colLookup, h1] using ih

lemma colLookup_mapEntry_ne (l : List (String × List Value)) (c c' : String)
    (F : List Value → List Value) (h : c' ≠ c) :
    colLookup (l.map (fun p => if p.1 == c then (p.1, F p.2) else p)) c'
      = colLookup l c' := by
  induction l with
  | nil => rfl
  | cons p rest ih =>
    by_cases h1 : (p.1 == c) = true
    · have h2 : (p.1 == c') = false := by
        rw [beq_eq_false_iff_ne]
        rw [beq_iff_eq] at h1
        rw [h1]
        exact fun e => h e.symm
      simpa [colLookup, h1, h2] using ih
    · simp only [Bool.not_eq_true] at h1
      by_cases h3 : (p.1 == c') = true
      · simp [colLookup, h1, h3]
      · simp only [Bool.not_eq_true] at h3
        simpa [colLookup, h1, h3] using ih

lemma colLookup_append_single_of_ne (l : List (String × List Value)) (c c' : String)
    (vs : List Value) (h : c' ≠ c) :
    colLookup (l ++ [(c, vs)]) c' = colLookup l c' := by
  induction l with
  | nil =>
    show colLookup [(c, vs)] c' = none
    simp [colLookup, beq_eq_false_iff_ne.mpr (Ne.symm h)]
  | cons p rest ih =>
    by_cases h1 : (p.1 == c') = true
    · simp [colLookup, h1]
    · simp only [Bool.not_eq_true] at h1
      simp [colLookup, h1, ih]

lemma Df.getCol_mapCol_self (df : Df) (c : String) (f : Value → Value) :
    (df.mapCol c f).getCol c = (df.getCol c).map (List.map f) :=
  colLookup_mapEntry_self df.cols c (List.map f)

lemma Df.getCol_mapCol_of_ne (df : Df) (c c' : String) (f : Value → Value) (h : c' ≠ c) :
    (df.mapCol c f).getCol c' = df.getCol c' :=
  colLookup_mapEntry_ne df.cols c c' (List.map f) h

lemma Df.getCol_setColScalar_of_ne (df : Df) (c c' : String) (v : Value) (h : c' ≠ c) :
    (df.setColScalar c v).getCol c' = df.getCol c' := by
  unfold Df.setColScalar
  split
  · exact colLookup_mapEntry_ne df.cols c c' (fun cells => cells.map (fun _ => v)) h
  · exact colLookup_append_single_of_ne df.cols c c' (List.replicate df.nrows v) h

lemma colLookup_isSome_eq_any (l : List (String × List Value)) (c : String) :
    (colLookup l c).isSome = l.any (fun p => p.1 == c) := by
  induction l with
  | nil => rfl
  | cons p rest ih =>
    by_cases h : (p.1 == c) = true
    · simp [colLookup, h]
    · simp only [Bool.not_eq_true] at h
      simp [colLookup, h, ih]

lemma Df.hasCol_eq_isSome (df : Df) (c : String) :
    df.hasCol c = (df.getCol c).isSome := by
  unfold Df.hasCol Df.getCol
  rw [colLookup_isSome_eq_any]

lemma Df.getCol_pctStep_of_ne (d : Df) (c c' : String) (h : c' ≠ c) :
    (pctStep d c).getCol c' = d.getCol c' := by
  unfold pctStep
  split
  · exact Df.getCol_mapCol_of_ne d c c' pctFn h
  · rfl

lemma Df.getCol_pctStep_self (d : Df) (c : String) :
    (pctStep d c).getCol c = (d.getCol c).map (List.map pctFn) := by
  unfold pctStep
  split
  · exact Df.getCol_mapCol_self d c pctFn
  · rename_i h
    have hn : d.getCol c = none := by
      rw [Df.hasCol_eq_isSome] at h
      exact Option.not_isSome_iff_eq_none.mp (by simp [h])
    rw [hn]
    rfl

/-- Reduction of `get_stock_history` on a successful fetch of a non-empty
frame with a parseable symbol. -/
lemma get_stock_history_ok (df : Df) (symbol name : String) (code : Int)
    (hcode : pyInt symbol = some code) (hne : df.isEmpty = false) :
    get_stock_history (Except.ok df) symbol name
      = ⟨none, percentCols.foldl pctStep
          ((df.setColScalar "股票代码" (.str (formatPad6 code))).setColScalar
            "股票名称" (.str name))⟩ := by
  simp [get_stock_history, hcode, hne]

/-- Reduction of `get_stock_history` when `int(symbol)` raises. -/
lemma get_stock_history_badInt (df : Df) (symbol name : String)
    (hp : pyInt symbol = none) (hne : df.isEmpty = false) :
    get_stock_history (Except.ok df) symbol name
      = ⟨some (failMsg symbol (intErrMsg symbol)), Df.empty⟩ := by
  simp [get_stock_history, hp, hne]

/-- The percent columns of the worker result are the input columns mapped
cell-wise through `pctFn`. -/
lemma get_stock_history_percentCol (df : Df) (symbol name : String) (code : Int)
    (hcode : pyInt symbol = some code) (hne : df.isEmpty = false)
    (col : String) (hcol : col ∈ percentCols) :
    (get_stock_history (Except.ok df) symbol name).table.getCol col
      = (df.getCol col).map (List.map pctFn) := by
  rw [get_stock_history_ok df symbol name code hcode hne]
  show (pctStep (pctStep _ "换手率") "涨跌幅").getCol col = _
  have hcol2 : col = "换手率" ∨ col = "涨跌幅" := by
    simpa [percentCols] using hcol
  rcases hcol2 with rfl | rfl
  · rw [Df.getCol_pctStep_of_ne _ _ _ (by decide), Df.getCol_pctStep_self]
    rw [Df.getCol_setColScalar_of_ne _ _ _ _ (by decide)]
    rw [Df.getCol_setColScalar_of_ne _ _ _ _ (by decide)]
  · rw [Df.getCol_pctStep_self, Df.getCol_pctStep_of_ne _ _ _ (by decide)]
    rw [Df.getCol_setColScalar_of_ne _ _ _ _ (by decide)]
    rw [Df.getCol_setColScalar_of_ne _ _ _ _ (by decide)]

/-- Claim C3: `get_stock_history` never raises to its caller.  Any
exception arising while fetching (first conjunct: a provider exception with
message `e`) or while post-processing (second conjunct: the `ValueError`
raised by `int(symbol)` inside the `try` block) is caught, a diagnostic
containing the error text truncated to its first 50 characters is printed,
and an empty table is returned instead of propagating the error. -/
theorem claim_C3 :
    (∀ e symbol name : String,
      get_stock_history (Except.error e) symbol name
        = ⟨some ("股票 " ++ symbol ++ " 获取失败: " ++ e.take 50 ++ "..."), Df.empty⟩)
    ∧ (∀ (df : Df) (symbol name : String), df.isEmpty = false → pyInt symbol = none →
      get_stock_history (Except.ok df) symbol name
        = ⟨some ("股票 " ++ symbol ++ " 获取失败: " ++ (intErrMsg symbol).take 50 ++ "..."),
            Df.empty⟩) := by
  constructor
  · intro e symbol name
    rfl
  · intro df symbol name hne hp
    exact get_stock_history_badInt df symbol name hp hne

/-- Witness for claim C3: a provider error whose message is longer than 50
characters is truncated in the printed diagnostic, and a worker whose
post-processing fails returns the empty table with a diagnostic. -/
theorem claim_C3_witness :
    (get_stock_history
        (Except.error "connection timed out after 30000 milliseconds while contacting provider")
        "600000" "浦发银行"
      = ⟨some ("股票 " ++ "600000" ++ " 获取失败: "
          ++ ("connection timed out after 30000 milliseconds while contacting provider").take 50
          ++ "..."), Df.empty⟩)
    ∧ (get_stock_history (Except.ok ⟨[("日期", [Value.str "2025-03-24"])]⟩) "6000AB" "浦发银行"
      = ⟨some ("股票 " ++ "6000AB" ++ " 获取失败: " ++ (intErrMsg "6000AB").take 50 ++ "..."),
          Df.empty⟩) :=
  ⟨claim_C3.1 "connection timed out after 30000 milliseconds while contacting provider"
      "600000" "浦发银行",
    claim_C3.2 ⟨[("日期", [Value.str "2025-03-24"])]⟩ "6000AB" "浦发银行"
      (by decide) (by decide)⟩

/-- Claim C9: for a ticker whose code string is not parseable as a decimal
integer, `get_stock_history` returns an empty table even when the provider
call succeeded and returned rows: the re-stamping of the code field
converts the symbol with `int()`, whose failure is caught by the same
handler as provider errors (printing the same-shaped diagnostic), and the
ticker is dropped from the output. -/
theorem claim_C9 (df : Df) (symbol name : String)
    (hp : pyInt symbol = none) (hne : df.isEmpty = false) :
    (get_stock_history (Except.ok df) symbol name).table = Df.empty
    ∧ (get_stock_history (Except.ok df) symbol name).log
        = some (failMsg symbol (intErrMsg symbol)) := by
  rw [get_stock_history_badInt df symbol name hp hne]
  exact ⟨rfl, rfl⟩

/-- Witness for claim C9: the provider returned one row for symbol
`"00000A"`, yet the worker result is the empty table. -/
theorem claim_C9_witness :
    (get_stock_history (Except.ok ⟨[("日期", [Value.str "2025-03-25"]),
        ("收盘", [Value.num "10.5"])]⟩) "00000A" "某股票").table = Df.empty
    ∧ (get_stock_history (Except.ok ⟨[("日期", [Value.str "2025-03-25"]),
        ("收盘", [Value.num "10.5"])]⟩) "00000A" "某股票").log
        = some (failMsg "00000A" (intErrMsg "00000A")) :=
  claim_C9 ⟨[("日期", [Value.str "2025-03-25"]), ("收盘", [Value.num "10.5"])]⟩
    "00000A" "某股票" (by decide) (by decide)

/-- Claim C7: for every non-empty provider result, the worker converts the
turnover-rate and change-percent columns, when present, cell by cell to the
string form of the value with a literal `%` appended. -/
theorem claim_C7 (df : Df) (symbol name : String) (code : Int) (vs : List Value)
    (hcode : pyInt symbol = some code) (hne : df.isEmpty = false)
    (col : String) (hcol : col ∈ percentCols) (hvs : df.getCol col = some vs) :
    (get_stock_history (Except.ok df) symbol name).table.getCol col
      = some (vs.map (fun v => Value.str (v.pyStr ++ "%"))) := by
  rw [get_stock_history_percentCol df symbol name code hcode hne col hcol, hvs]
  rfl

/-- Witness for claim C7, realizing Scenario 4 of the specification: a
numeric turnover-rate value `12.34` in a provider row becomes the string
`"12.34%"` in the output row for that field. -/
theorem claim_C7_witness :
    (get_stock_history (Except.ok ⟨[("日期", [Value.str "2025-03-24"]),
        ("换手率", [Value.num "12.34"])]⟩) "600000" "浦发银行").table.getCol "换手率"
      = some [Value.str "12.34%"] :=
  (claim_C7 ⟨[("日期", [Value.str "2025-03-24"]), ("换手率", [Value.num "12.34"])]⟩
      "600000" "浦发银行" 600000 [Value.num "12.34"]
      (by decide) (by decide) "换手率" (by decide) (by decide)).trans (by decide)

/-- Claim C10: when a turnover-rate or change-percent cell is missing
(NaN), the corresponding output cell becomes the literal string `"nan%"`
rather than an empty or missing value, because the percent-suffix step
renders the value with `astype(str)` unconditionally before appending `%`. -/
theorem claim_C10 (df : Df) (symbol name : String) (code : Int) (vs : List Value) (i : Nat)
    (hcode : pyInt symbol = some code) (hne : df.isEmpty = false)
    (col : String) (hcol : col ∈ percentCols) (hvs : df.getCol col = some vs)
    (hnan : vs[i]? = some Value.nan) :
    ∃ ws, (get_stock_history (Except.ok df) symbol name).table.getCol col = some ws
      ∧ ws[i]? = some (Value.str "nan%") := by
  refine ⟨vs.map pctFn, ?_, ?_⟩
  · rw [get_stock_history_percentCol df symbol name code hcode hne col hcol, hvs]
    rfl
  · rw [List.getElem?_map, hnan]
    rfl

/-- Witness for claim C10: a missing change-percent value in the only row
becomes the string `"nan%"`. -/
theorem claim_C10_witness :
    ∃ ws, (get_stock_history (Except.ok ⟨[("日期", [Value.str "2025-03-26"]),
        ("涨跌幅", [Value.nan])]⟩) "000001" "平安银行").table.getCol "涨跌幅" = some ws
      ∧ ws[0]? = some (Value.str "nan%") :=
  claim_C10 ⟨[("日期", [Value.str "2025-03-26"]), ("涨跌幅", [Value.nan])]⟩
    "000001" "平安银行" 1 [Value.nan] 0
    (by decide) (by decide) "涨跌幅" (by decide) (by decide) (by decide)

/-! ## The Merger: `main`, lines 56-101

A row of the final table is modeled by its two sort-key fields (the
stock-code and date columns, both strings, compared as Python compares
strings: lexicographically by code point) together with a payload standing
for the remaining cells.  `mergeAndSave` models lines 82-101: keep the
non-empty partial tables (line 75 appends only those), concatenate them
(line 84, `pd.concat`, no de-duplication), and sort by stock code then
date (line 87).  `sort_values` on several columns performs a stable
lexicographic sort (`np.lexsort`); since a stable sort's output is unique,
it is modeled by insertion sort under the row order `rowLE`.
-/

/-- Strict lexicographic comparison of character lists by code point: the
comparison Python applies to strings. -/
def codeLt : List Char → List Char → Bool
  | _, [] => false
  | [], _ :: _ => true
  | a :: as, b :: bs =>
    if a.toNat < b.toNat then true
    else if b.toNat < a.toNat then false
    else codeLt as bs

/-- Non-strict lexicographic comparison of character lists by code point. -/
def codeLe : List Char → List Char → Bool
  | [], _ => true
  | _ :: _, [] => false
  | a :: as, b :: bs =>
    if a.toNat < b.toNat then true
    else if b.toNat < a.toNat then false
    else codeLe as bs

/-- Python `<` on strings. -/
def strLt (a b : String) : Bool := codeLt a.data b.data

/-- Python `<=` on strings. -/
def strLe (a b : String) : Bool := codeLe a.data b.data

lemma codeLt_cons (x y : Char) (xs ys : List Char) :
    codeLt (x :: xs) (y :: ys) = true
      ↔ x.toNat < y.toNat ∨ (x.toNat = y.toNat ∧ codeLt xs ys = true) := by
  simp only [codeLt]
  by_cases h1 : x.toNat < y.toNat
  · simp [h1]
  · by_cases h2 : y.toNat < x.toNat
    · simp only [if_neg h1, if_pos h2]
      constructor
      · intro h; exact absurd h (by simp)
      · intro h; omega
    · have he : x.toNat = y.toNat := by omega
      simp [if_neg h1, if_neg h2, he]

lemma codeLe_cons (x y : Char) (xs ys : List Char) :
    codeLe (x :: xs) (y :: ys) = true
      ↔ x.toNat < y.toNat ∨ (x.toNat = y.toNat ∧ codeLe xs ys = true) := by
  simp only [codeLe]
  by_cases h1 : x.toNat < y.toNat
  · simp [h1]
  · by_cases h2 : y.toNat < x.toNat
    · simp only [if_neg h1, if_pos h2]
      constructor
      · intro h; exact absurd h (by simp)
      · intro h; omega
    · have he : x.toNat = y.toNat := by omega
      simp [if_neg h1, if_neg h2, he]

lemma codeLe_refl (a : List Char) : codeLe a a = true := by
  induction a with
  | nil => rfl
  | cons x xs ih => rw [codeLe_cons]; right; exact ⟨rfl, ih⟩

lemma codeLt_trans : ∀ a b c : List Char,
    codeLt a b = true → codeLt b c = true → codeLt a c = true := by
  intro a
  induction a with
  | nil =>
    intro b c h1 h2
    cases b with
    | nil => exact absurd h1 (by simp [codeLt])
    | cons y ys =>
      cases c with
      | nil => exact absurd h2 (by simp [codeLt])
      | cons z zs => rfl
  | cons x xs ih =>
    intro b c h1 h2
    cases b with
    | nil => exact absurd h1 (by simp [codeLt])
    | cons y ys =>
      cases c with
      | nil => exact absurd h2 (by simp [codeLt])
      | cons z zs =>
        rw [codeLt_cons] at h1 h2 ⊢
        rcases h1 with h1 | ⟨e1, h1⟩ <;> rcases h2 with h2 | ⟨e2, h2⟩
        · left; omega
        · left; omega
        · left; omega
        · right; exact ⟨by omega, ih ys zs h1 h2⟩

lemma codeLe_trans : ∀ a b c : List Char,
    codeLe a b = true → codeLe b c = true → codeLe a c = true := by
  intro a
  induction a with
  | nil => intro b c _ _; rfl
  | cons x xs ih =>
    intro b c h1 h2
    cases b with
    | nil => exact absurd h1 (by simp [codeLe])
    | cons y ys =>
      cases c with
      | nil => exact absurd h2 (by simp [codeLe])
      | cons z zs =>
        rw [codeLe_cons] at h1 h2 ⊢
        rcases h1 with h1 | ⟨e1, h1⟩ <;> rcases h2 with h2 | ⟨e2, h2⟩
        · left; omega
        · left; omega
        · left; omega
        · right; exact ⟨by omega, ih ys zs h1 h2⟩

lemma char_eq_of_toNat_eq (x y : Char) (h : x.toNat = y.toNat) : x = y := by
  have h2 : x.val.toNat = y.val.toNat := h
  exact Char.eq_of_val_eq (UInt32.toNat.inj h2)

lemma codeLt_trichotomy : ∀ a b : List Char,
    codeLt a b = true ∨ a = b ∨ codeLt b a = true := by
  intro a
  induction a with
  | nil =>
    intro b
    cases b with
    | nil => right; left; rfl
    | cons y ys => left; rfl
  | cons x xs ih =>
    intro b
    cases b with
    | nil => right; right; rfl
    | cons y ys =>
      rcases Nat.lt_trichotomy x.toNat y.toNat with h | h | h
      · left; rw [codeLt_cons]; left; exact h
      · have hxy : x = y := char_eq_of_toNat_eq x y h
        subst hxy
        rcases ih ys with h2 | h2 | h2
        · left; rw [codeLt_cons]; right; exact ⟨rfl, h2⟩
        · right; left; rw [h2]
        · right; right; rw [codeLt_cons]; right; exact ⟨rfl, h2⟩
      · right; right; rw [codeLt_cons]; left; exact h

lemma codeLe_total : ∀ a b : List Char, codeLe a b = true ∨ codeLe b a = true := by
  intro a
  induction a with
  | nil => intro b; left; rfl
  | cons x xs ih =>
    intro b
    cases b with
    | nil => right; rfl
    | cons y ys =>
      rcases Nat.lt_trichotomy x.toNat y.toNat with h | h | h
      · left; rw [codeLe_cons]; left; exact h
      · rcases ih ys with h2 | h2
        · left; rw [codeLe_cons]; right; exact ⟨h, h2⟩
        · right; rw [codeLe_cons]; right; exact ⟨h.symm, h2⟩
      · right; rw [codeLe_cons]; left; exact h

lemma string_eq_of_data_eq (a b : String) (h : a.data = b.data) : a = b := by
  cases a with
  | mk l =>
    cases b with
    | mk m =>
      have h2 : l = m := by simpa using h
      rw [h2]

/-- One row of a partial or final table, reduced to its sort key: the
stock-code cell (a 6-character code string), the trading-date cell, and a
payload standing for the remaining cells of the row. -/
structure Row where
  stockCode : String
  date : String
  payload : Nat
deriving DecidableEq

/-- The row order of line 87: by stock code ascending, then by trading date
ascending. -/
def rowLE (p q : Row) : Prop :=
  strLt p.stockCode q.stockCode = true
    ∨ (p.stockCode = q.stockCode ∧ strLe p.date q.date = true)

instance : DecidableRel rowLE := fun p q => by
  unfold rowLE
  exact inferInstance

instance : IsTrans Row rowLE := by
  constructor
  intro a b c hab hbc
  rcases hab with h1 | ⟨e1, h1⟩ <;> rcases hbc with h2 | ⟨e2, h2⟩
  · left; exact codeLt_trans _ _ _ h1 h2
  · left; rw [← e2]; exact h1
  · left; rw [e1]; exact h2
  · right; exact ⟨e1.trans e2, codeLe_trans _ _ _ h1 h2⟩

instance : IsTotal Row rowLE := by
  constructor
  intro a b
  rcases codeLt_trichotomy a.stockCode.data b.stockCode.data with h | h | h
  · left; left; exact h
  · have e : a.stockCode = b.stockCode := string_eq_of_data_eq _ _ h
    rcases codeLe_total a.date.data b.date.data with h2 | h2
    · left; right; exact ⟨e, h2⟩
    · right; right; exact ⟨e.symm, h2⟩
  · right; left; exact h

/-- Line 87: the sort of the concatenated table, by stock code ascending
then date ascending, stable otherwise. -/
def sortRows (rows : List Row) : List Row := List.insertionSort rowLE rows

/-- Lines 72-80: the coordinator loop appends to `all_data` exactly the
worker results that are non-empty, in completion order. -/
def collectResults (results : List (List Row)) : List (List Row) :=
  results.filter (fun t => !t.isEmpty)

/-- The externally visible outcome of lines 82-101: the rows written to the
output file (if any) and the message reported when there is no data. -/
structure MainOutcome where
  written : Option (List Row)
  message : Option String
deriving DecidableEq

/-- Lines 82-101: when `all_data` is non-empty, concatenate it (line 84)
and sort (line 87), writing the result; otherwise report that no data was
retrieved and write nothing. -/
def mergeAndSave (results : List (List Row)) : MainOutcome :=
  let all_data := collectResults results
  if !all_data.isEmpty then ⟨some (sortRows all_data.join), none⟩
  else ⟨none, some "未获取到有效数据"⟩

/-! ### Facts about the merger -/

lemma mergeAndSave_written_eq (results : List (List Row)) (out : List Row)
    (hw : (mergeAndSave results).written = some out) :
    out = sortRows (collectResults results).join := by
  unfold mergeAndSave at hw
  by_cases h : (collectResults results).isEmpty
  · simp [h] at hw
  · simp only [h, Bool.not_false, if_true] at hw
    simpa using hw.symm

lemma join_collectResults (results : List (List Row)) :
    (collectResults results).join = results.join := by
  unfold collectResults
  induction results with
  | nil => rfl
  | cons t rest ih =>
    by_cases h : t.isEmpty
    · have ht : t = [] := List.isEmpty_iff.mp h
      simp [List.filter_cons, h, ht, ih]
    · simp [List.filter_cons, h, ih]

/-- Stability of the sort: a predicate that only selects rows that are
pairwise `rowLE`-equivalent filters to the same list before and after
sorting. -/
lemma filter_sortRows (l : List Row) (p : Row → Bool)
    (hp : ∀ a b, p a = true → p b = true → rowLE a b) :
    (sortRows l).filter p = l.filter p := by
  have hpair : (l.filter p).Pairwise rowLE := by
    apply List.pairwise_of_forall_mem_list
    intro a ha b hb
    exact hp a b (List.of_mem_filter ha) (List.of_mem_filter hb)
  have hsub : l.filter p <+ sortRows l :=
    List.sublist_insertionSort hpair (List.filter_sublist l)
  have hperm : (sortRows l).filter p ~ l.filter p :=
    (List.perm_insertionSort rowLE l).filter p
  have heq : (l.filter p).filter p = l.filter p := by
    rw [List.filter_filter]
    apply List.filter_congr
    intro a _
    rw [Bool.and_self]
  have hsub2 : l.filter p <+ (sortRows l).filter p := by
    have h2 := hsub.filter p
    rwa [heq] at h2
  exact (hsub2.eq_of_length hperm.length_eq.symm).symm

/-- Claim C1: for every pair of adjacent rows `(a, b)` in the final merged
table produced by `main`, either `a.stockCode < b.stockCode`, or
`a.stockCode = b.stockCode` and `a.date <= b.date` (rows ordered primarily
by stock code ascending, secondarily by trading date ascending); string
comparisons are Python comparisons, modeled by `strLt` and `strLe`. -/
theorem claim_C1 (results : List (List Row)) (out : List Row)
    (hw : (mergeAndSave results).written = some out)
    (i : Nat) (h1 : i < out.length) (h2 : i + 1 < out.length) :
    strLt (out.get ⟨i, h1⟩).stockCode (out.get ⟨i + 1, h2⟩).stockCode = true
    ∨ ((out.get ⟨i, h1⟩).stockCode = (out.get ⟨i + 1, h2⟩).stockCode
      ∧ strLe (out.get ⟨i, h1⟩).date (out.get ⟨i + 1, h2⟩).date = true) := by
  have hout := mergeAndSave_written_eq results out hw
  subst hout
  have hs : List.Sorted rowLE (sortRows (collectResults results).join) :=
    List.sorted_insertionSort rowLE _
  exact hs.rel_get_of_lt (Fin.mk_lt_mk.mpr (by omega))

/-- Witness for claim C1: two one-row tables arriving in descending code
order are written sorted ascending. -/
theorem claim_C1_witness :
    strLt (Row.mk "000001" "2025-03-24" 7).stockCode (Row.mk "600000" "2025-03-25" 3).stockCode
        = true
    ∨ ((Row.mk "000001" "2025-03-24" 7).stockCode = (Row.mk "600000" "2025-03-25" 3).stockCode
      ∧ strLe (Row.mk "000001" "2025-03-24" 7).date (Row.mk "600000" "2025-03-25" 3).date
          = true) := by
  have h := claim_C1 [[Row.mk "600000" "2025-03-25" 3], [Row.mk "000001" "2025-03-24" 7]]
    [Row.mk "000001" "2025-03-24" 7, Row.mk "600000" "2025-03-25" 3]
    (by decide) 0 (by decide) (by decide)
  simpa using h

/-- Claim C2: the merge step's sort is stable.  Any two rows that compare
equal on the (stockCode, date) key appear in the final table in the same
relative order they had in the concatenation of the input tables: for every
key, filtering the final table to that key gives exactly the same list as
filtering the concatenated input. -/
theorem claim_C2 (results : List (List Row)) (out : List Row)
    (hw : (mergeAndSave results).written = some out) (key : String × String) :
    out.filter (fun r => (r.stockCode, r.date) == key)
      = results.join.filter (fun r => (r.stockCode, r.date) == key) := by
  have hout := mergeAndSave_written_eq results out hw
  subst hout
  rw [← join_collectResults results]
  apply filter_sortRows
  intro a b ha hb
  have ha2 : (a.stockCode, a.date) = key := by simpa using ha
  have hb2 : (b.stockCode, b.date) = key := by simpa using hb
  have hab := ha2.trans hb2.symm
  have hab2 : a.stockCode = b.stockCode ∧ a.date = b.date := by
    simpa [Prod.ext_iff] using hab
  right
  refine ⟨hab2.1, ?_⟩
  rw [hab2.2]
  exact codeLe_refl _

/-- Witness for claim C2: two rows with the same key but different payloads
keep their arrival order in the written table. -/
theorem claim_C2_witness :
    ([Row.mk "600000" "2025-03-24" 1, Row.mk "600000" "2025-03-24" 2].filter
        (fun r => (r.stockCode, r.date) == ("600000", "2025-03-24")))
      = ([[Row.mk "600000" "2025-03-24" 1], [Row.mk "600000" "2025-03-24" 2]].join.filter
        (fun r => (r.stockCode, r.date) == ("600000", "2025-03-24"))) :=
  claim_C2 [[Row.mk "600000" "2025-03-24" 1], [Row.mk "600000" "2025-03-24" 2]]
    [Row.mk "600000" "2025-03-24" 1, Row.mk "600000" "2025-03-24" 2]
    (by decide) ("600000", "2025-03-24")

/-- Claim C4: the coordinator accumulates exactly the non-empty worker
results (empty tables are discarded), and the final table is their
concatenation with no de-duplication: it is a permutation of the
concatenation of the non-empty partial results, and its row count is the
sum of their row counts. -/
theorem claim_C4 (results : List (List Row)) (out : List Row)
    (hw : (mergeAndSave results).written = some out) :
    out ~ (results.filter (fun t => !t.isEmpty)).join
    ∧ out.length = ((results.filter (fun t => !t.isEmpty)).map List.length).sum := by
  have hout := mergeAndSave_written_eq results out hw
  subst hout
  have hperm : sortRows (collectResults results).join ~ (collectResults results).join :=
    List.perm_insertionSort rowLE _
  refine ⟨hperm, ?_⟩
  rw [hperm.length_eq, List.length_join]
  rfl

/-- Witness for claim C4: an empty worker result is discarded and the row
count of the written table is the sum over the non-empty results. -/
theorem claim_C4_witness :
    [Row.mk "000002" "2025-03-24" 5]
        ~ ([[], [Row.mk "000002" "2025-03-24" 5]].filter (fun t => !t.isEmpty)).join
    ∧ ([Row.mk "000002" "2025-03-24" 5] : List Row).length
        = (([[], [Row.mk "000002" "2025-03-24" 5]].filter (fun t => !t.isEmpty)).map
            List.length).sum :=
  claim_C4 [[], [Row.mk "000002" "2025-03-24" 5]] [Row.mk "000002" "2025-03-24" 5] (by decide)

/-- Claim C5: if every worker result is empty, `main` reports the
no-data-retrieved message and writes no output file; and whenever a table
is written, at least one non-empty worker result was collected. -/
theorem claim_C5 (results : List (List Row)) :
    ((∀ t ∈ results, t = []) ↔ mergeAndSave results = ⟨none, some "未获取到有效数据"⟩)
    ∧ (∀ out, (mergeAndSave results).written = some out → ∃ t ∈ results, t ≠ []) := by
  have hkey : (collectResults results).isEmpty = true ↔ ∀ t ∈ results, t = [] := by
    unfold collectResults
    rw [List.isEmpty_iff, List.filter_eq_nil_iff]
    constructor
    · intro h t ht
      have h2 := h t ht
      have h3 : t.isEmpty = true := by simpa using h2
      exact List.isEmpty_iff.mp h3
    · intro h t ht
      simp [h t ht]
  constructor
  · constructor
    · intro h
      have h2 : (collectResults results).isEmpty = true := hkey.mpr h
      unfold mergeAndSave
      simp [h2]
    · intro h t ht
      by_contra ht2
      have hmem : t ∈ collectResults results :=
        List.mem_filter.mpr ⟨ht, by simp [List.isEmpty_iff, ht2]⟩
      have hne : (collectResults results).isEmpty = false := by
        rcases hh : (collectResults results).isEmpty with _ | _
        · rfl
        · exact absurd (List.isEmpty_iff.mp hh) (List.ne_nil_of_mem hmem)
      unfold mergeAndSave at h
      simp [hne] at h
  · intro out hw
    by_contra hc
    push_neg at hc
    have h2 : (collectResults results).isEmpty = true := hkey.mpr hc
    unfold mergeAndSave at hw
    simp [h2] at hw

/-- Witness for claim C5: two empty worker results produce the no-data
outcome, and a run that wrote a table had a non-empty result. -/
theorem claim_C5_witness :
    mergeAndSave [[], []] = ⟨none, some "未获取到有效数据"⟩
    ∧ ∃ t ∈ [[Row.mk "000001" "2025-03-24" 0]], t ≠ ([] : List Row) :=
  ⟨(claim_C5 [[], []]).1.mp (by decide),
    (claim_C5 [[Row.mk "000001" "2025-03-24" 0]]).2 [Row.mk "000001" "2025-03-24" 0] (by decide)⟩

/-! ## Column ordering of the final table (lines 90-92)

`pd.concat` (line 84) resolves the column set of the concatenated frame as
the union of the input frames' columns in first-seen order; `unionCols`
models that resolution on the column-name lists of the input tables.
Lines 90-92 then put the three base columns first, followed by every other
column of the concatenated frame in its existing (first-seen) order. -/

/-- Line 90: `base_columns`. -/
def base_columns : List String := ["股票代码", "股票名称", "日期"]

/-- Line 91: `other_columns`, the concatenated frame's columns without the
base columns, in unchanged order. -/
def other_columns (cols : List String) : List String :=
  cols.filter (fun c => !base_columns.contains c)

/-- Line 92: the final column order, base columns first. -/
def reorderCols (cols : List String) : List String := base_columns ++ other_columns cols

/-- The column order produced by `pd.concat` on line 84: the union of the
input tables' columns in first-seen order. -/
def unionCols (tables : List (List String)) : List String :=
  tables.foldl (fun acc cs => acc ++ cs.filter (fun c => !acc.contains c)) []

/-- The column order of the written table. -/
def finalCols (tables : List (List String)) : List String := reorderCols (unionCols tables)

/-- Claim C8: in the final table the columns are ordered with the stock
code, stock name and date columns as the first three, followed by all
remaining columns in their first-seen order from the concatenated input
(the remaining columns form the concatenated frame's column list with the
base columns removed, hence a sublist of it, preserving first-seen
order). -/
theorem claim_C8 (tables : List (List String)) :
    (finalCols tables).take 3 = base_columns
    ∧ (finalCols tables).drop 3 = other_columns (unionCols tables)
    ∧ other_columns (unionCols tables) <+ unionCols tables := by
  refine ⟨?_, ?_, List.filter_sublist _⟩
  · show (base_columns ++ other_columns (unionCols tables)).take 3 = base_columns
    rfl
  · show (base_columns ++ other_columns (unionCols tables)).drop 3
      = other_columns (unionCols tables)
    rfl
